import Mathlib

/-
Verification of the version state machine and deployment pipeline of the
pkg-deploy repository (src/package_deploy).

The Python sources are shallowly embedded:
  - utils.parse_prerelease            -> parse_prerelease (via matchVersion)
  - VersionManager.bump_version       -> bumpCore, renderState, bump_version_trace
  - PackageDeploy.deploy / git_push   -> deployRun, git_push  (event traces over
    an environment recording the outcomes of the external subprocesses)
  - PackageDeployer._get_deploy_strategy, PyPIDeploy.deploy, NexusDeploy.deploy
                                      -> getDeployStrategy, pypiUploadCmd, nexusUploadCmd
Machine integers do not occur (Python ints are unbounded, embedded as Nat).
-/

/-- Python dict returned by utils.parse_prerelease: keys major, minor, patch,
prerelease_type (None or one of the strings matched by the group ([abc]|rc)),
prerelease_version, has_prerelease. -/
structure VersionInfo where
  major : Nat
  minor : Nat
  patch : Nat
  prerelease_type : Option String
  prerelease_version : Nat
  has_prerelease : Bool
deriving Repr, DecidableEq

/-- The ValueError variants raised by the embedded code, identified by their
message shape. -/
inductive PyErr where
  | invalidVersionFormat (version : String)
  | invalidBumpKind (version_type : String)
  | missingRepositoryUrl
deriving Repr, DecidableEq

/-- Greedy digit run, the semantics of a leading regex group of one-or-more
digits followed by a non-digit: splits a char list into its maximal digit
run and the rest. -/
def takeDigits : List Char → List Char × List Char
  | [] => ([], [])
  | c :: cs =>
    if c.isDigit then
      (c :: (takeDigits cs).1, (takeDigits cs).2)
    else ([], c :: cs)

/-- Python int() on a digit string (leading zeros allowed). -/
def digitsToNat (l : List Char) : Nat :=
  l.foldl (fun acc c => acc * 10 + (c.toNat - '0'.toNat)) 0

/-- The regex suffix of a zero-or-more digit group followed by the end
anchor, with Python's default-mode semantics of the anchor: it matches at
the true end of the string or just before a single final newline.  The
digit group is greedy, so it is the maximal leading digit run and the
remainder must be empty or exactly one newline; returns the digit group. -/
def takeNumSuffix (l : List Char) : Option (List Char) :=
  if (takeDigits l).2 = [] then some (takeDigits l).1
  else if (takeDigits l).2 = ['\n'] then some (takeDigits l).1
  else none

/-- The suffix of the regex after the third digit group: the optional group
([abc]|rc) followed by a group of zero-or-more digits and the end anchor
(which in Python also matches before one final newline).  Returns the
matched tag and the digit suffix, or none when the suffix cannot match.
(The input always starts with a non-digit or is empty, because it is the
remainder of a maximal digit run.) -/
def parseTail : List Char → Option (Option String × List Char)
  | [] => some (none, [])
  | c :: rest =>
    if c = 'a' then
      match takeNumSuffix rest with
      | some num => some (some "a", num)
      | none => none
    else if c = 'b' then
      match takeNumSuffix rest with
      | some num => some (some "b", num)
      | none => none
    else if c = 'c' then
      match takeNumSuffix rest with
      | some num => some (some "c", num)
      | none => none
    else if c = 'r' then
      match rest with
      | [] => none
      | c2 :: rest2 =>
        if c2 = 'c' then
          match takeNumSuffix rest2 with
          | some num => some (some "rc", num)
          | none => none
        else none
    else if c = '\n' then
      (if rest = [] then some (none, []) else none)
    else none

/-- re.match of the pattern anchored digits dot digits dot digits, optional
tag group ([abc]|rc), digit group, end anchor — with Python's
greedy-with-backtracking semantics (the maximal digit runs are the only
candidates that can possibly complete the match, see takeDigits lemmas) and
Python's end-anchor rule that also accepts one final newline.  Char.isDigit
embeds the regex digit class on ASCII input, the scope of the grammar
theorem below; outside ASCII the regex digit class also covers the other
Unicode decimal digits, which this development does not model. -/
def matchVersion (cs : List Char) : Option VersionInfo :=
  if (takeDigits cs).1 = [] then none else
  match (takeDigits cs).2 with
  | [] => none
  | c1 :: rest1 =>
    if c1 = '.' then
      if (takeDigits rest1).1 = [] then none else
      match (takeDigits rest1).2 with
      | [] => none
      | c2 :: rest2 =>
        if c2 = '.' then
          if (takeDigits rest2).1 = [] then none else
          match parseTail (takeDigits rest2).2 with
          | some (tag, num) =>
            some { major := digitsToNat (takeDigits cs).1
                   minor := digitsToNat (takeDigits rest1).1
                   patch := digitsToNat (takeDigits rest2).1
                   prerelease_type := tag
                   prerelease_version := if num = [] then 1 else digitsToNat num
                   has_prerelease := tag.isSome }
          | none => none
        else none
    else none

/-- utils.parse_prerelease: regex match on the version string; on failure
raises ValueError with an invalid-format message. -/
def parse_prerelease (version : String) : Except PyErr VersionInfo :=
  match matchVersion version.toList with
  | some info => .ok info
  | none => .error (.invalidVersionFormat version)

example : parse_prerelease "1.2.3" = .ok ⟨1, 2, 3, none, 1, false⟩ := rfl
example : parse_prerelease "1.2.3a" = .ok ⟨1, 2, 3, some "a", 1, true⟩ := rfl
example : parse_prerelease "1.2.3rc7" = .ok ⟨1, 2, 3, some "rc", 7, true⟩ := rfl
example : parse_prerelease "1.2.3c1" = .ok ⟨1, 2, 3, some "c", 1, true⟩ := rfl
example : parse_prerelease "1.2.3a0" = .ok ⟨1, 2, 3, some "a", 0, true⟩ := rfl
example : parse_prerelease "1.2.03" = .ok ⟨1, 2, 3, none, 1, false⟩ := rfl
example : parse_prerelease "1.2.3\n" = .ok ⟨1, 2, 3, none, 1, false⟩ := rfl
example : parse_prerelease "1.2.3a1\n" = .ok ⟨1, 2, 3, some "a", 1, true⟩ := rfl
example : parse_prerelease "1.2.3rc\n" = .ok ⟨1, 2, 3, some "rc", 1, true⟩ := rfl
example : parse_prerelease "1.2" = .error (.invalidVersionFormat "1.2") := rfl
example : parse_prerelease "1.2.3d1" = .error (.invalidVersionFormat "1.2.3d1") := rfl
example : parse_prerelease "1.2.3rcx" = .error (.invalidVersionFormat "1.2.3rcx") := rfl
example : parse_prerelease "1.2.3\n\n" = .error (.invalidVersionFormat "1.2.3\n\n") := rfl
example : parse_prerelease "1.2.3\na" = .error (.invalidVersionFormat "1.2.3\na") := rfl
example : parse_prerelease "1.2.3a\n1" = .error (.invalidVersionFormat "1.2.3a\n1") := rfl

/-- The five local variables of VersionManager.bump_version after the
if/elif chain (major, minor, patch, prerelease_type, prerelease_version);
the has_prerelease local is read but never reassigned. -/
structure BumpState where
  major : Nat
  minor : Nat
  patch : Nat
  prerelease_type : Option String
  prerelease_version : Nat
deriving Repr, DecidableEq

/-- The initial locals extracted from the parse_prerelease dict. -/
def VersionInfo.toState (i : VersionInfo) : BumpState :=
  ⟨i.major, i.minor, i.patch, i.prerelease_type, i.prerelease_version⟩

/-- The if/elif chain of VersionManager.bump_version: computes the new
locals, or none for the final else branch (raise ValueError with an
invalid-version-type message). -/
def bumpCore (i : VersionInfo) (version_type : String) : Option BumpState :=
  if version_type = "patch" then
    if i.has_prerelease then
      some ⟨i.major, i.minor, i.patch, none, 1⟩
    else
      some ⟨i.major, i.minor, i.patch + 1, i.prerelease_type, i.prerelease_version⟩
  else if version_type = "minor" then
    some ⟨i.major, i.minor + 1, 0, none, 1⟩
  else if version_type = "major" then
    some ⟨i.major + 1, 0, 0, none, 1⟩
  else if version_type = "alpha" then
    if i.has_prerelease then
      if i.prerelease_type = some "a" then
        some ⟨i.major, i.minor, i.patch, i.prerelease_type, i.prerelease_version + 1⟩
      else
        some ⟨i.major, i.minor, i.patch, some "a", 1⟩
    else
      some ⟨i.major, i.minor, i.patch, some "a", 1⟩
  else if version_type = "beta" then
    if i.has_prerelease then
      if i.prerelease_type = some "a" then
        some ⟨i.major, i.minor, i.patch, some "b", 1⟩
      else if i.prerelease_type = some "b" then
        some ⟨i.major, i.minor, i.patch, i.prerelease_type, i.prerelease_version + 1⟩
      else
        some ⟨i.major, i.minor, i.patch, some "b", 1⟩
    else
      some ⟨i.major, i.minor, i.patch, some "b", 1⟩
  else if version_type = "rc" then
    if i.has_prerelease then
      if i.prerelease_type = some "a" ∨ i.prerelease_type = some "b" then
        some ⟨i.major, i.minor, i.patch, some "rc", 1⟩
      else if i.prerelease_type = some "rc" then
        some ⟨i.major, i.minor, i.patch, i.prerelease_type, i.prerelease_version + 1⟩
      else
        some ⟨i.major, i.minor, i.patch, i.prerelease_type, i.prerelease_version⟩
    else
      some ⟨i.major, i.minor, i.patch, some "rc", 1⟩
  else
    none

/-- The new-version f-string at the end of bump_version: with a truthy
prerelease_type the tag and number are appended to major.minor.patch,
otherwise only the three numbers are rendered.  (Python string truthiness:
None and the empty string are falsy; the empty string never occurs here.) -/
def renderState (st : BumpState) : String :=
  match st.prerelease_type with
  | some t =>
    if t = "" then
      Nat.repr st.major ++ "." ++ Nat.repr st.minor ++ "." ++ Nat.repr st.patch
    else
      Nat.repr st.major ++ "." ++ Nat.repr st.minor ++ "." ++ Nat.repr st.patch
        ++ t ++ Nat.repr st.prerelease_version
  | none => Nat.repr st.major ++ "." ++ Nat.repr st.minor ++ "." ++ Nat.repr st.patch

/-- Canonical rendering of a parsed version, same f-string rule. -/
def renderVersion (i : VersionInfo) : String := renderState i.toState

/-- The version-type values accepted by the if/elif chain. -/
def bumpKinds : List String := ["patch", "minor", "major", "alpha", "beta", "rc"]

/-- Side effect of VersionManager.bump_version on the manifest: a write of
the project version field via _save_config. -/
inductive MEv where
  | save (v : String)
deriving Repr, DecidableEq

/-- VersionManager.bump_version as a trace: parse the current version
(raising on bad format), run the if/elif chain (raising on a bad kind),
render the new version, and only then write it to the manifest and return
it.  The event list holds the manifest writes in program order. -/
def bump_version_trace (current version_type : String) :
    List MEv × Except PyErr String :=
  match parse_prerelease current with
  | .error _ => ([], .error (.invalidVersionFormat current))
  | .ok info =>
    match bumpCore info version_type with
    | none => ([], .error (.invalidBumpKind version_type))
    | some st => ([MEv.save (renderState st)], .ok (renderState st))

/-- Replaying the manifest writes over the stored version string. -/
def manifestAfter (stored : String) (evs : List MEv) : String :=
  evs.foldl (fun _ e => match e with | .save v => v) stored

example : bump_version_trace "1.2.3" "patch" = ([MEv.save "1.2.4"], .ok "1.2.4") := rfl
example : bump_version_trace "1.2.3a2" "patch" = ([MEv.save "1.2.3"], .ok "1.2.3") := rfl
example : bump_version_trace "1.2.3a1" "alpha" = ([MEv.save "1.2.3a2"], .ok "1.2.3a2") := rfl
example : bump_version_trace "1.2.3a2" "beta" = ([MEv.save "1.2.3b1"], .ok "1.2.3b1") := rfl
example : bump_version_trace "2.9.9" "minor" = ([MEv.save "2.10.0"], .ok "2.10.0") := rfl
example : bump_version_trace "1.2.3" "alpha" = ([MEv.save "1.2.3a1"], .ok "1.2.3a1") := rfl
example : bump_version_trace "1.2.3c1" "rc" = ([MEv.save "1.2.3c1"], .ok "1.2.3c1") := rfl
example : bump_version_trace "1.2.3" "banana" = ([], .error (.invalidBumpKind "banana")) := rfl
example : bump_version_trace "1.2" "patch" = ([], .error (.invalidVersionFormat "1.2")) := rfl

/-- Observable events of one PackageDeploy.deploy run, in program order. -/
inductive PEv where
  | saveManifest (v : String)
  | runBuild
  | runUpload
  | gitPush
  | warnGitPushFailed
  | cleanup
  | logDeployComplete
  | logDeployFailed
deriving Repr, DecidableEq

/-- The configuration and external-subprocess outcomes a run depends on:
stored manifest version, requested bump kind, the cython flag, whether the
build subprocess exits zero, the configured repository URL, whether the
twine upload exits zero, and whether the git commands succeed. -/
structure PipelineEnv where
  storedVersion : String
  versionType : String
  useCython : Bool
  buildOk : Bool
  repositoryUrl : Option String
  uploadOk : Bool
  gitOk : Bool

/-- Manifest writes become pipeline events. -/
def liftMEv : MEv → PEv
  | .save v => .saveManifest v

/-- The build stage as called from PackageDeploy.deploy.  Standard strategy
(build.py StandardBuildStrategy.build): runs the subprocess, then raises
ValueError on a nonzero exit (second component none) and returns True
otherwise.  Cython strategy: its internal raise on a nonzero exit is caught
by its own except handler, which returns False. -/
def buildStage (useCython buildOk : Bool) : List PEv × Option Bool :=
  if useCython then ([PEv.runBuild], some buildOk)
  else if buildOk then ([PEv.runBuild], some true)
  else ([PEv.runBuild], none)

/-- NexusDeploy.deploy: raises (caught by its own handler, returning False)
when the repository URL is falsy, otherwise invokes twine and returns
whether it exited zero. -/
def nexusDeployStage (repoUrl : Option String) (uploadOk : Bool) :
    List PEv × Bool :=
  match repoUrl with
  | none => ([], false)
  | some u => if u = "" then ([], false) else ([PEv.runUpload], uploadOk)

/-- PackageDeploy.git_push: runs the git commands; any failure is caught
and logged as a warning, never re-raised. -/
def git_push (gitOk : Bool) : List PEv :=
  if gitOk then [PEv.gitPush] else [PEv.gitPush, PEv.warnGitPushFailed]

/-- PackageDeploy.deploy (package_deploy/__init__.py): inside one try block,
bump the version, build, and when the build returned True deploy, and when
the deploy returned True push tags; then clean up and log completion.  Any
exception escaping a stage jumps to the except handler, which logs the
failure and returns False — skipping everything after the raise point,
including cleanup_build.  The Bool is False exactly on that handler path. -/
def deployRun (env : PipelineEnv) : List PEv × Bool :=
  match bump_version_trace env.storedVersion env.versionType with
  | (mevs, .error _) => (mevs.map liftMEv ++ [PEv.logDeployFailed], false)
  | (mevs, .ok _) =>
    let pre := mevs.map liftMEv
    match buildStage env.useCython env.buildOk with
    | (bevs, none) => (pre ++ bevs ++ [PEv.logDeployFailed], false)
    | (bevs, some built) =>
      if built then
        match nexusDeployStage env.repositoryUrl env.uploadOk with
        | (devs, true) =>
          (pre ++ bevs ++ devs ++ git_push env.gitOk
            ++ [PEv.cleanup, PEv.logDeployComplete], true)
        | (devs, false) =>
          (pre ++ bevs ++ devs ++ [PEv.cleanup, PEv.logDeployComplete], true)
      else
        (pre ++ bevs ++ [PEv.cleanup, PEv.logDeployComplete], true)

/-- The manifest version after replaying a run's writes. -/
def finalManifest (stored : String) (evs : List PEv) : String :=
  evs.foldl (fun acc e => match e with | .saveManifest v => v | _ => acc) stored

example :
    deployRun ⟨"1.2.3", "patch", false, false, some "https://nexus.example.com/repo", true, true⟩ =
      ([PEv.saveManifest "1.2.4", PEv.runBuild, PEv.logDeployFailed], false) := rfl
example :
    deployRun ⟨"1.2.3", "patch", true, false, some "https://nexus.example.com/repo", true, true⟩ =
      ([PEv.saveManifest "1.2.4", PEv.runBuild, PEv.cleanup, PEv.logDeployComplete], true) := rfl
example :
    deployRun ⟨"1.2.3", "patch", false, true, some "https://nexus.example.com/repo", true, false⟩ =
      ([PEv.saveManifest "1.2.4", PEv.runBuild, PEv.runUpload, PEv.gitPush,
        PEv.warnGitPushFailed, PEv.cleanup, PEv.logDeployComplete], true) := rfl

/-- The two deploy strategy classes. -/
inductive StratKind where
  | nexus
  | pypi
deriving Repr, DecidableEq

/-- Contiguous-substring test on char lists (Python `in` on strings). -/
def subSeqIn (pat : List Char) : List Char → Bool
  | [] => pat.isEmpty
  | c :: t => pat.isPrefixOf (c :: t) || subSeqIn pat t

/-- Python `pat in s` for strings. -/
def strContains (s pat : String) : Bool := subSeqIn pat.toList s.toList

/-- Python str.lower, character by character (the URL check only involves
ASCII letters). -/
def lowerStr (s : String) : String := String.mk (s.toList.map Char.toLower)

/-- PackageDeployer._get_deploy_strategy (deploy.py): NexusDeploy when the
configured repository URL is truthy and its lowercasing contains "nexus",
otherwise PyPIDeploy. -/
def getDeployStrategy (repoUrl : Option String) : StratKind :=
  match repoUrl with
  | some u =>
    if u = "" then .pypi
    else if strContains (lowerStr u) "nexus" then .nexus else .pypi
  | none => .pypi

/-- Optional twine flag: emitted only when the value is truthy. -/
def optFlag (flag : String) (v : Option String) : List String :=
  match v with
  | some s => if s = "" then [] else [flag, s]
  | none => []

/-- PyPIDeploy.deploy command construction: never requires a repository
URL; the URL, username, password and dry-run flags are each optional. -/
def pypiUploadCmd (repoUrl username password : Option String) (dryRun : Bool)
    (distFiles : List String) : Except PyErr (List String) :=
  .ok (["python", "-m", "twine", "upload"]
    ++ optFlag "--repository-url" repoUrl
    ++ optFlag "--username" username
    ++ optFlag "--password" password
    ++ (if dryRun then ["--dry-run"] else [])
    ++ distFiles)

/-- NexusDeploy.deploy command construction: raises ValueError when the
repository URL is falsy, otherwise always passes the URL and appends
--skip-existing. -/
def nexusUploadCmd (repoUrl username password : Option String) (dryRun : Bool)
    (distFiles : List String) : Except PyErr (List String) :=
  match repoUrl with
  | none => .error .missingRepositoryUrl
  | some u =>
    if u = "" then .error .missingRepositoryUrl
    else
      .ok (["python", "-m", "twine", "upload", "--repository-url", u]
        ++ optFlag "--username" username
        ++ optFlag "--password" password
        ++ (if dryRun then ["--dry-run"] else [])
        ++ ["--skip-existing"]
        ++ distFiles)

example : getDeployStrategy (some "https://Nexus.example.com/r") = .nexus := rfl
example : getDeployStrategy (some "https://pypi.org/") = .pypi := rfl
example : getDeployStrategy none = .pypi := rfl

/-- A nonempty all-digit character run (one regex digit group). -/
def IsDigitRun (l : List Char) : Prop := l ≠ [] ∧ ∀ c ∈ l, c.isDigit = true

instance : DecidablePred IsDigitRun := fun l => by
  unfold IsDigitRun; infer_instance

/-- The character lists matchable by the prerelease tag group ([abc]|rc). -/
def TagList (t : List Char) : Prop :=
  t = ['a'] ∨ t = ['b'] ∨ t = ['c'] ∨ t = ['r', 'c']

instance : DecidablePred TagList := fun t => by
  unfold TagList; infer_instance

/-- The language of the full regex of parse_prerelease: three dot-separated
digit runs, an optional tag among a, b, c, rc, an optional trailing digit
run (only after a tag; without a tag the maximal third digit run already
absorbs every trailing digit), and — Python's end-anchor semantics — an
optional single final newline. -/
def MatchesGrammar (s : String) : Prop :=
  ∃ d1 d2 d3 t num nl,
    s.toList = d1 ++ '.' :: (d2 ++ '.' :: (d3 ++ t ++ num ++ nl)) ∧
    IsDigitRun d1 ∧ IsDigitRun d2 ∧ IsDigitRun d3 ∧
    (t = [] ∨ TagList t) ∧ (∀ c ∈ num, c.isDigit = true) ∧
    (t = [] → num = []) ∧ (nl = [] ∨ nl = ['\n'])

/-- Tag chars as the Python match-group string (None when absent). -/
def tagStr : List Char → Option String
  | [] => none
  | t => some (String.mk t)

theorem takeDigits_append (cs : List Char) :
    (takeDigits cs).1 ++ (takeDigits cs).2 = cs := by
  induction cs with
  | nil => rfl
  | cons c t ih =>
    by_cases h : c.isDigit
    · simp [takeDigits, h, ih]
    · simp [takeDigits, h]

theorem takeDigits_fst_digit (cs : List Char) :
    ∀ c ∈ (takeDigits cs).1, c.isDigit = true := by
  induction cs with
  | nil => simp [takeDigits]
  | cons c t ih =>
    by_cases h : c.isDigit
    · simpa [takeDigits, h] using ih
    · simp [takeDigits, h]

theorem takeDigits_snd_head (cs : List Char) :
    ∀ c t, (takeDigits cs).2 = c :: t → c.isDigit = false := by
  induction cs with
  | nil => intro c t h; simp [takeDigits] at h
  | cons a s ih =>
    intro c t h
    by_cases ha : a.isDigit
    · rw [takeDigits] at h
      simp only [ha, if_true] at h
      exact ih c t h
    · rw [takeDigits] at h
      simp only [ha, if_false, Bool.false_eq_true] at h
      obtain ⟨h1, -⟩ := List.cons.inj h.symm
      rw [h1]
      simpa using ha

theorem takeDigits_exact (ds r : List Char) (hds : ∀ c ∈ ds, c.isDigit = true)
    (hr : ∀ c t, r = c :: t → c.isDigit = false) :
    takeDigits (ds ++ r) = (ds, r) := by
  induction ds with
  | nil =>
    cases r with
    | nil => rfl
    | cons c t => simp [takeDigits, hr c t rfl]
  | cons d ds ih =>
    have hd : d.isDigit = true := hds d (by simp)
    have ihr := ih (fun c hc => hds c (by simp [hc]))
    rw [List.cons_append, takeDigits]
    simp only [hd, if_true, ihr]

theorem takeNumSuffix_complete (num nl : List Char)
    (hnum : ∀ c ∈ num, c.isDigit = true) (hnl : nl = [] ∨ nl = ['\n']) :
    takeNumSuffix (num ++ nl) = some num := by
  have he : takeDigits (num ++ nl) = (num, nl) := by
    apply takeDigits_exact num nl hnum
    intro c r hcr
    rcases hnl with rfl | rfl
    · simp at hcr
    · obtain ⟨hc, -⟩ := List.cons.inj hcr
      rw [← hc]; rfl
  rcases hnl with rfl | rfl
  · simp only [List.append_nil] at he ⊢
    simp [takeNumSuffix, he]
  · simp [takeNumSuffix, he]

theorem takeNumSuffix_sound (l num : List Char)
    (h : takeNumSuffix l = some num) :
    (∀ c ∈ num, c.isDigit = true) ∧
    ∃ nl, l = num ++ nl ∧ (nl = [] ∨ nl = ['\n']) := by
  rw [takeNumSuffix] at h
  by_cases h1 : (takeDigits l).2 = []
  · rw [if_pos h1] at h
    obtain rfl := Option.some.inj h
    refine ⟨takeDigits_fst_digit l, [], ?_, Or.inl rfl⟩
    have happ := takeDigits_append l
    rw [h1] at happ
    exact happ.symm
  · rw [if_neg h1] at h
    by_cases h2 : (takeDigits l).2 = ['\n']
    · rw [if_pos h2] at h
      obtain rfl := Option.some.inj h
      refine ⟨takeDigits_fst_digit l, ['\n'], ?_, Or.inr rfl⟩
      have happ := takeDigits_append l
      rw [h2] at happ
      exact happ.symm
    · rw [if_neg h2] at h
      exact absurd h (by simp)

theorem matchVersion_complete_nl (d1 d2 d3 t num nl : List Char)
    (h1 : IsDigitRun d1) (h2 : IsDigitRun d2) (h3 : IsDigitRun d3)
    (ht : t = [] ∨ TagList t) (hnum : ∀ c ∈ num, c.isDigit = true)
    (hte : t = [] → num = []) (hnl : nl = [] ∨ nl = ['\n']) :
    matchVersion (d1 ++ '.' :: (d2 ++ '.' :: (d3 ++ t ++ num ++ nl)))
      = some ⟨digitsToNat d1, digitsToNat d2, digitsToNat d3, tagStr t,
              if num = [] then 1 else digitsToNat num, (tagStr t).isSome⟩ := by
  obtain ⟨h1n, h1d⟩ := h1
  obtain ⟨h2n, h2d⟩ := h2
  obtain ⟨h3n, h3d⟩ := h3
  have hdot : ∀ (x : List Char) (c : Char) (r : List Char),
      ('.' :: x : List Char) = c :: r → c.isDigit = false := by
    intro x c r h
    obtain ⟨hc, -⟩ := List.cons.inj h
    rw [← hc]; rfl
  have e1 := takeDigits_exact d1 ('.' :: (d2 ++ '.' :: (d3 ++ t ++ num ++ nl)))
    h1d (hdot _)
  have e2 := takeDigits_exact d2 ('.' :: (d3 ++ t ++ num ++ nl)) h2d (hdot _)
  have e3 : takeDigits (d3 ++ (t ++ (num ++ nl))) = (d3, t ++ (num ++ nl)) := by
    apply takeDigits_exact d3 (t ++ (num ++ nl)) h3d
    intro c r hct
    rcases ht with rfl | htag
    · rw [hte rfl] at hct
      simp only [List.nil_append] at hct
      rcases hnl with rfl | rfl
      · simp at hct
      · obtain ⟨hc, -⟩ := List.cons.inj hct
        rw [← hc]; rfl
    · rcases htag with rfl | rfl | rfl | rfl <;>
        · obtain ⟨hc, -⟩ := List.cons.inj hct
          rw [← hc]; rfl
  have hns := takeNumSuffix_complete num nl hnum hnl
  have etail : parseTail (t ++ (num ++ nl)) = some (tagStr t, num) := by
    rcases ht with rfl | htag
    · rw [hte rfl] at hns ⊢
      simp only [List.nil_append] at hns ⊢
      rcases hnl with rfl | rfl
      · rfl
      · rfl
    · rcases htag with rfl | rfl | rfl | rfl <;> simp [parseTail, hns, tagStr]
  have e2' : takeDigits (d2 ++ '.' :: (d3 ++ (t ++ (num ++ nl))))
      = (d2, '.' :: (d3 ++ (t ++ (num ++ nl)))) := by
    simpa [List.append_assoc] using e2
  rw [matchVersion, e1]
  simp [h1n, h2n, h3n, e2', e3, etail]

theorem matchVersion_complete (d1 d2 d3 t num : List Char)
    (h1 : IsDigitRun d1) (h2 : IsDigitRun d2) (h3 : IsDigitRun d3)
    (ht : t = [] ∨ TagList t) (hnum : ∀ c ∈ num, c.isDigit = true)
    (hte : t = [] → num = []) :
    matchVersion (d1 ++ '.' :: (d2 ++ '.' :: (d3 ++ t ++ num)))
      = some ⟨digitsToNat d1, digitsToNat d2, digitsToNat d3, tagStr t,
              if num = [] then 1 else digitsToNat num, (tagStr t).isSome⟩ := by
  have hgen := matchVersion_complete_nl d1 d2 d3 t num [] h1 h2 h3 ht hnum hte
    (Or.inl rfl)
  simpa using hgen

theorem parseTail_sound (l : List Char) (tag : Option String) (num : List Char)
    (h : parseTail l = some (tag, num)) :
    (∀ c ∈ num, c.isDigit = true) ∧
    ∃ t nl, l = t ++ num ++ nl ∧ tag = tagStr t ∧ (t = [] ∨ TagList t) ∧
      (t = [] → num = []) ∧ (nl = [] ∨ nl = ['\n']) := by
  cases l with
  | nil =>
    simp only [parseTail] at h
    obtain ⟨htag, hnum⟩ : none = tag ∧ ([] : List Char) = num := by
      have := Option.some.inj h
      exact ⟨congrArg Prod.fst this, congrArg Prod.snd this⟩
    subst htag; subst hnum
    exact ⟨by simp, [], [], by simp, rfl, Or.inl rfl, fun _ => rfl, Or.inl rfl⟩
  | cons c rest =>
    simp only [parseTail] at h
    by_cases ha : c = 'a'
    · subst ha
      rw [if_pos rfl] at h
      cases hns : takeNumSuffix rest with
      | none => rw [hns] at h; exact absurd h (by simp)
      | some numx =>
        rw [hns] at h
        replace h : some ((some "a" : Option String), numx) = some (tag, num) := h
        have := Option.some.inj h
        obtain ⟨htag, hnum⟩ := Prod.mk.inj this
        subst htag; subst hnum
        obtain ⟨hdig, nl, hrest, hnl⟩ := takeNumSuffix_sound rest numx hns
        refine ⟨hdig, ['a'], nl, ?_, rfl, Or.inr (Or.inl rfl), by simp, hnl⟩
        rw [hrest]; simp
    rw [if_neg ha] at h
    by_cases hb : c = 'b'
    · subst hb
      rw [if_pos rfl] at h
      cases hns : takeNumSuffix rest with
      | none => rw [hns] at h; exact absurd h (by simp)
      | some numx =>
        rw [hns] at h
        replace h : some ((some "b" : Option String), numx) = some (tag, num) := h
        have := Option.some.inj h
        obtain ⟨htag, hnum⟩ := Prod.mk.inj this
        subst htag; subst hnum
        obtain ⟨hdig, nl, hrest, hnl⟩ := takeNumSuffix_sound rest numx hns
        refine ⟨hdig, ['b'], nl, ?_, rfl, Or.inr (Or.inr (Or.inl rfl)), by simp, hnl⟩
        rw [hrest]; simp
    rw [if_neg hb] at h
    by_cases hc : c = 'c'
    · subst hc
      rw [if_pos rfl] at h
      cases hns : takeNumSuffix rest with
      | none => rw [hns] at h; exact absurd h (by simp)
      | some numx =>
        rw [hns] at h
        replace h : some ((some "c" : Option String), numx) = some (tag, num) := h
        have := Option.some.inj h
        obtain ⟨htag, hnum⟩ := Prod.mk.inj this
        subst htag; subst hnum
        obtain ⟨hdig, nl, hrest, hnl⟩ := takeNumSuffix_sound rest numx hns
        refine ⟨hdig, ['c'], nl, ?_, rfl, Or.inr (Or.inr (Or.inr (Or.inl rfl))),
          by simp, hnl⟩
        rw [hrest]; simp
    rw [if_neg hc] at h
    by_cases hr : c = 'r'
    · subst hr
      rw [if_pos rfl] at h
      cases rest with
      | nil => exact absurd h (by simp)
      | cons c2 rest2 =>
        replace h : (if c2 = 'c' then
            (match takeNumSuffix rest2 with
             | some numy => some ((some "rc" : Option String), numy)
             | none => none)
          else none) = some (tag, num) := h
        by_cases hc2 : c2 = 'c'
        · subst hc2
          rw [if_pos rfl] at h
          cases hns : takeNumSuffix rest2 with
          | none => rw [hns] at h; exact absurd h (by simp)
          | some numx =>
            rw [hns] at h
            replace h : some ((some "rc" : Option String), numx) = some (tag, num) := h
            have := Option.some.inj h
            obtain ⟨htag, hnum⟩ := Prod.mk.inj this
            subst htag; subst hnum
            obtain ⟨hdig, nl, hrest, hnl⟩ := takeNumSuffix_sound rest2 numx hns
            refine ⟨hdig, ['r', 'c'], nl, ?_, rfl,
              Or.inr (Or.inr (Or.inr (Or.inr rfl))), by simp, hnl⟩
            rw [hrest]; simp
        · rw [if_neg hc2] at h; exact absurd h (by simp)
    rw [if_neg hr] at h
    by_cases hn : c = '\n'
    · subst hn
      rw [if_pos rfl] at h
      by_cases hrest : rest = []
      · rw [if_pos hrest] at h
        have := Option.some.inj h
        obtain ⟨htag, hnum⟩ := Prod.mk.inj this
        subst htag; subst hnum
        subst hrest
        exact ⟨by simp, [], ['\n'], rfl, rfl, Or.inl rfl, fun _ => rfl, Or.inr rfl⟩
      · rw [if_neg hrest] at h; exact absurd h (by simp)
    · rw [if_neg hn] at h; exact absurd h (by simp)

theorem matchVersion_sound (cs : List Char) (i : VersionInfo)
    (h : matchVersion cs = some i) :
    ∃ d1 d2 d3 t num nl,
      cs = d1 ++ '.' :: (d2 ++ '.' :: (d3 ++ t ++ num ++ nl)) ∧
      IsDigitRun d1 ∧ IsDigitRun d2 ∧ IsDigitRun d3 ∧
      (t = [] ∨ TagList t) ∧ (∀ c ∈ num, c.isDigit = true) ∧ (t = [] → num = []) ∧
      (nl = [] ∨ nl = ['\n']) ∧
      i = ⟨digitsToNat d1, digitsToNat d2, digitsToNat d3, tagStr t,
           if num = [] then 1 else digitsToNat num, (tagStr t).isSome⟩ := by
  rw [matchVersion] at h
  by_cases h1 : (takeDigits cs).1 = []
  · rw [if_pos h1] at h; exact absurd h (by simp)
  rw [if_neg h1] at h
  cases hr1 : (takeDigits cs).2 with
  | nil => rw [hr1] at h; exact absurd h (by simp)
  | cons c1 rest1 =>
    rw [hr1] at h
    replace h : (if c1 = '.' then
        (if (takeDigits rest1).1 = [] then none else
          match (takeDigits rest1).2 with
          | [] => none
          | c2 :: rest2 =>
            if c2 = '.' then
              if (takeDigits rest2).1 = [] then none else
              match parseTail (takeDigits rest2).2 with
              | some (tag, num) =>
                some { major := digitsToNat (takeDigits cs).1
                       minor := digitsToNat (takeDigits rest1).1
                       patch := digitsToNat (takeDigits rest2).1
                       prerelease_type := tag
                       prerelease_version := if num = [] then 1 else digitsToNat num
                       has_prerelease := tag.isSome }
              | none => none
            else none)
      else none) = some i := h
    by_cases hc1 : c1 = '.'
    swap
    · rw [if_neg hc1] at h; exact absurd h (by simp)
    subst hc1
    rw [if_pos rfl] at h
    by_cases h2 : (takeDigits rest1).1 = []
    · rw [if_pos h2] at h; exact absurd h (by simp)
    rw [if_neg h2] at h
    cases hr2 : (takeDigits rest1).2 with
    | nil => rw [hr2] at h; exact absurd h (by simp)
    | cons c2 rest2 =>
      rw [hr2] at h
      replace h : (if c2 = '.' then
          (if (takeDigits rest2).1 = [] then none else
            match parseTail (takeDigits rest2).2 with
            | some (tag, num) =>
              some { major := digitsToNat (takeDigits cs).1
                     minor := digitsToNat (takeDigits rest1).1
                     patch := digitsToNat (takeDigits rest2).1
                     prerelease_type := tag
                     prerelease_version := if num = [] then 1 else digitsToNat num
                     has_prerelease := tag.isSome }
            | none => none)
        else none) = some i := h
      by_cases hc2 : c2 = '.'
      swap
      · rw [if_neg hc2] at h; exact absurd h (by simp)
      subst hc2
      rw [if_pos rfl] at h
      by_cases h3 : (takeDigits rest2).1 = []
      · rw [if_pos h3] at h; exact absurd h (by simp)
      rw [if_neg h3] at h
      cases hpt : parseTail (takeDigits rest2).2 with
      | none => rw [hpt] at h; exact absurd h (by simp)
      | some tn =>
        obtain ⟨tag, num⟩ := tn
        rw [hpt] at h
        replace h := (Option.some.inj h).symm
        obtain ⟨hnumd, t, nl, htail, htag, htl, hte, hnl⟩ :=
          parseTail_sound (takeDigits rest2).2 tag num hpt
        refine ⟨(takeDigits cs).1, (takeDigits rest1).1, (takeDigits rest2).1,
          t, num, nl, ?_, ⟨h1, takeDigits_fst_digit cs⟩,
          ⟨h2, takeDigits_fst_digit rest1⟩, ⟨h3, takeDigits_fst_digit rest2⟩,
          htl, hnumd, hte, hnl, ?_⟩
        · have ecs := takeDigits_append cs
          rw [hr1] at ecs
          have er1 := takeDigits_append rest1
          rw [hr2] at er1
          have er2 := takeDigits_append rest2
          rw [htail] at er2
          have hchain : cs = (takeDigits cs).1 ++ '.' :: rest1 := ecs.symm
          rw [← er1, ← er2] at hchain
          simp only [List.append_assoc] at hchain ⊢
          exact hchain
        · rw [h, htag]

/-- Decimal digit characters of a Nat, most significant first: the clean
structural recursion that Nat.repr (used by the f-string rendering of the
Python ints) is proven below to produce. -/
def natDigits (n : Nat) : List Char :=
  if _h : n < 10 then [Nat.digitChar n]
  else natDigits (n / 10) ++ [Nat.digitChar (n % 10)]
decreasing_by
  exact Nat.div_lt_self (by omega) (by omega)

theorem digitChar_isDigit (n : Nat) (h : n < 10) :
    (Nat.digitChar n).isDigit = true := by
  interval_cases n <;> rfl

theorem digitChar_val (n : Nat) (h : n < 10) :
    (Nat.digitChar n).toNat - '0'.toNat = n := by
  interval_cases n <;> rfl

theorem natDigits_ne_nil (n : Nat) : natDigits n ≠ [] := by
  rw [natDigits]
  split <;> simp

theorem natDigits_all_digit (n : Nat) : ∀ c ∈ natDigits n, c.isDigit = true := by
  induction n using Nat.strong_induction_on with
  | _ n ih =>
    rw [natDigits]
    split
    · next h =>
      intro c hc
      simp only [List.mem_singleton] at hc
      subst hc
      exact digitChar_isDigit n h
    · next h =>
      intro c hc
      rw [List.mem_append, List.mem_singleton] at hc
      rcases hc with hc | hc
      · exact ih (n / 10) (Nat.div_lt_self (by omega) (by omega)) c hc
      · subst hc
        exact digitChar_isDigit (n % 10) (Nat.mod_lt n (by omega))

theorem natDigits_foldl (n : Nat) : ∀ v : Nat,
    (natDigits n).foldl (fun acc c => acc * 10 + (c.toNat - '0'.toNat)) v
      = v * 10 ^ (natDigits n).length + n := by
  induction n using Nat.strong_induction_on with
  | _ n ih =>
    intro v
    rw [natDigits]
    split
    · next h =>
      have hd := digitChar_val n h
      simp only [List.foldl_cons, List.foldl_nil, List.length_cons,
        List.length_nil, Nat.zero_add, pow_one, hd]
    · next h =>
      rw [List.foldl_append, ih (n / 10) (Nat.div_lt_self (by omega) (by omega)) v]
      have hd := digitChar_val (n % 10) (Nat.mod_lt n (by omega))
      have hnm : 10 * (n / 10) + n % 10 = n := Nat.div_add_mod n 10
      simp only [List.foldl_cons, List.foldl_nil, List.length_append,
        List.length_cons, List.length_nil, Nat.zero_add, hd]
      generalize (natDigits (n / 10)).length = L
      have key : (v * 10 ^ L + n / 10) * 10 + n % 10
          = v * (10 ^ L * 10) + (10 * (n / 10) + n % 10) := by ring
      rw [key, hnm, ← pow_succ]

theorem toDigitsCore_eq_natDigits :
    ∀ (fuel n : Nat) (acc : List Char), 0 < fuel → n < 10 ^ fuel →
      Nat.toDigitsCore 10 fuel n acc = natDigits n ++ acc := by
  intro fuel
  induction fuel with
  | zero => intro n acc h _; exact absurd h (by omega)
  | succ f ih =>
    intro n acc _ hlt
    simp only [Nat.toDigitsCore]
    by_cases hz : n / 10 = 0
    · have hn : n < 10 := by omega
      rw [natDigits]
      simp [hz, hn, Nat.mod_eq_of_lt hn]
    · have hf : 0 < f := by
        rcases Nat.eq_zero_or_pos f with rfl | hf
        · rw [pow_one] at hlt; omega
        · exact hf
      have hdiv : n / 10 < 10 ^ f := by
        have hp : (10 : Nat) ^ (f + 1) = 10 ^ f * 10 := pow_succ 10 f
        exact (Nat.div_lt_iff_lt_mul (by norm_num)).mpr (by rw [← hp]; exact hlt)
      rw [if_neg hz, ih (n / 10) (Nat.digitChar (n % 10) :: acc) hf hdiv]
      have hn10 : ¬ n < 10 := by omega
      conv_rhs => rw [natDigits]
      simp [hn10, List.append_assoc]

theorem repr_toList (n : Nat) : (Nat.repr n).toList = natDigits n := by
  have h2 : n < 10 ^ (n + 1) := by
    calc n < 10 ^ n := Nat.lt_pow_self (by norm_num) n
    _ ≤ 10 ^ (n + 1) := Nat.pow_le_pow_right (by norm_num) (Nat.le_succ n)
  rw [Nat.repr, Nat.toDigits,
    toDigitsCore_eq_natDigits (n + 1) n [] (Nat.succ_pos n) h2]
  simp [List.asString, String.toList]

theorem digitsToNat_natDigits (n : Nat) : digitsToNat (natDigits n) = n := by
  have := natDigits_foldl n 0
  simpa [digitsToNat] using this

theorem digitsToNat_repr (n : Nat) : digitsToNat (Nat.repr n).toList = n := by
  rw [repr_toList]
  exact digitsToNat_natDigits n

theorem parse_canonical (a b c : Nat) :
    parse_prerelease (Nat.repr a ++ "." ++ Nat.repr b ++ "." ++ Nat.repr c)
      = .ok ⟨a, b, c, none, 1, false⟩ := by
  have htl : (Nat.repr a ++ "." ++ Nat.repr b ++ "." ++ Nat.repr c).toList
      = natDigits a ++ '.' :: (natDigits b ++ '.' :: (natDigits c ++ [] ++ [])) := by
    simp only [String.toList, String.data_append]
    rw [show (Nat.repr a).data = natDigits a from repr_toList a]
    rw [show (Nat.repr b).data = natDigits b from repr_toList b]
    rw [show (Nat.repr c).data = natDigits c from repr_toList c]
    simp
  have hm := matchVersion_complete (natDigits a) (natDigits b) (natDigits c) [] []
    ⟨natDigits_ne_nil a, natDigits_all_digit a⟩
    ⟨natDigits_ne_nil b, natDigits_all_digit b⟩
    ⟨natDigits_ne_nil c, natDigits_all_digit c⟩
    (Or.inl rfl) (by simp) (fun _ => rfl)
  rw [digitsToNat_natDigits a, digitsToNat_natDigits b, digitsToNat_natDigits c] at hm
  rw [parse_prerelease, htl, hm]
  rfl

/-- Coherence of a parsed version: the has_prerelease key is the
presence of the prerelease_type key (true of every parse_prerelease
result). -/
def ValidInfo (i : VersionInfo) : Prop :=
  i.has_prerelease = i.prerelease_type.isSome

instance : DecidablePred ValidInfo := fun i => by
  unfold ValidInfo; infer_instance

theorem parse_valid (s : String) (i : VersionInfo)
    (h : parse_prerelease s = .ok i) : ValidInfo i := by
  rw [parse_prerelease] at h
  cases hm : matchVersion s.toList with
  | none => rw [hm] at h; exact absurd h (by simp)
  | some j =>
    rw [hm] at h
    replace h := Except.ok.inj h
    obtain ⟨d1, d2, d3, t, num, nl, -, -, -, -, -, -, -, -, hj⟩ :=
      matchVersion_sound s.toList j hm
    subst h
    rw [hj]
    rfl

theorem bumpCore_invalid (i : VersionInfo) (vt : String)
    (h : vt ∉ bumpKinds) : bumpCore i vt = none := by
  simp only [bumpKinds, List.mem_cons, List.not_mem_nil, or_false] at h
  push_neg at h
  obtain ⟨h1, h2, h3, h4, h5, h6⟩ := h
  rw [bumpCore, if_neg h1, if_neg h2, if_neg h3, if_neg h4, if_neg h5, if_neg h6]

theorem bump_trace_shape (current vt : String) :
    (∃ e, bump_version_trace current vt = ([], .error e)) ∨
      ∃ v, bump_version_trace current vt = ([MEv.save v], .ok v) := by
  cases hp : parse_prerelease current with
  | error e =>
    exact Or.inl ⟨.invalidVersionFormat current, by simp [bump_version_trace, hp]⟩
  | ok info =>
    cases hb : bumpCore info vt with
    | none =>
      exact Or.inl ⟨.invalidBumpKind vt, by simp [bump_version_trace, hp, hb]⟩
    | some st =>
      exact Or.inr ⟨renderState st, by simp [bump_version_trace, hp, hb]⟩

theorem liftMEv_mem (l : List MEv) (p : PEv) (h : p ∈ l.map liftMEv) :
    ∃ v, p = PEv.saveManifest v := by
  obtain ⟨m, -, hm⟩ := List.mem_map.mp h
  cases m with
  | save v => exact ⟨v, hm.symm⟩

/-- C1 counterexample: the claim asserts that parsing fails for every
prerelease tag letter other than a, b, rc, naming "1.2.3c1" as an example
that must fail — but parse_prerelease accepts it: the regex tag group is
([abc]|rc), so the letter c is a valid tag. -/
theorem c1_counterexample :
    parse_prerelease "1.2.3c1" = .ok ⟨1, 2, 3, some "c", 1, true⟩ := rfl

/-- C1 (amended): for ASCII input — where Char.isDigit is exactly the
regex digit class — parse_prerelease raises the invalid-format ValueError
exactly when the string does not match the grammar of three dot-separated
digit runs with an optional tag among a, b, c, rc, an optional trailing
digit run, and an optional single final newline (Python's end anchor also
matches before one trailing newline, so "1.2.3\n" is accepted).  The tag
c is accepted, any other tag letter is rejected.  Outside ASCII the regex
digit class additionally covers the other Unicode decimal digits, which
this development does not model. -/
theorem c1_parse_grammar (s : String)
    (_hascii : ∀ c ∈ s.toList, c.toNat < 128) :
    ((∃ i, parse_prerelease s = .ok i) ↔ MatchesGrammar s) ∧
    (parse_prerelease s = .error (.invalidVersionFormat s) ↔ ¬ MatchesGrammar s) := by
  have hiff : (∃ i, parse_prerelease s = .ok i) ↔ MatchesGrammar s := by
    constructor
    · rintro ⟨i, hi⟩
      rw [parse_prerelease] at hi
      cases hm : matchVersion s.toList with
      | none => rw [hm] at hi; exact absurd hi (by simp)
      | some j =>
        obtain ⟨d1, d2, d3, t, num, nl, hs, h1, h2, h3, ht, hn, hte, hnl, -⟩ :=
          matchVersion_sound s.toList j hm
        exact ⟨d1, d2, d3, t, num, nl, hs, h1, h2, h3, ht, hn, hte, hnl⟩
    · rintro ⟨d1, d2, d3, t, num, nl, hs, h1, h2, h3, ht, hn, hte, hnl⟩
      have hm := matchVersion_complete_nl d1 d2 d3 t num nl h1 h2 h3 ht hn hte hnl
      exact ⟨⟨digitsToNat d1, digitsToNat d2, digitsToNat d3, tagStr t,
        if num = [] then 1 else digitsToNat num, (tagStr t).isSome⟩,
        by rw [parse_prerelease, hs, hm]⟩
  refine ⟨hiff, ?_, ?_⟩
  · intro he hg
    obtain ⟨i, hi⟩ := hiff.mpr hg
    rw [hi] at he
    exact absurd he (by simp)
  · intro hg
    cases hm : matchVersion s.toList with
    | none => rw [parse_prerelease, hm]
    | some j =>
      exact absurd (hiff.mp ⟨j, by rw [parse_prerelease, hm]⟩) hg

/-- C1 witness: the ASCII string "1.2.3" with one trailing newline matches
the grammar (empty tag, empty digit suffix, newline accepted by the end
anchor), so the parser accepts it. -/
theorem c1_parse_grammar_witness :
    ∃ i, parse_prerelease "1.2.3\n" = .ok i := by
  refine (c1_parse_grammar "1.2.3\n" (by decide)).1.mpr ?_
  exact ⟨['1'], ['2'], ['3'], [], [], ['\n'], by decide, by decide, by decide,
    by decide, Or.inl rfl, by simp, fun _ => rfl, Or.inr rfl⟩

/-- C2 counterexample: the claim includes strings with leading zeros in a
component, but "1.2.03" parses to patch 3 and renders back as "1.2.3",
not "1.2.03". -/
theorem c2_counterexample :
    parse_prerelease "1.2.03" = .ok ⟨1, 2, 3, none, 1, false⟩ ∧
    renderVersion ⟨1, 2, 3, none, 1, false⟩ = "1.2.3" ∧
    "1.2.3" ≠ "1.2.03" :=
  ⟨rfl, rfl, by decide⟩

/-- C2 (amended): for every version string whose three components are
canonical decimal renderings (no leading zeros) and with no prerelease
tag, parsing yields exactly those three numbers and the canonical
rendering reproduces the input string. -/
theorem c2_round_trip (a b c : Nat) :
    parse_prerelease (Nat.repr a ++ "." ++ Nat.repr b ++ "." ++ Nat.repr c)
      = .ok ⟨a, b, c, none, 1, false⟩ ∧
    renderVersion ⟨a, b, c, none, 1, false⟩
      = Nat.repr a ++ "." ++ Nat.repr b ++ "." ++ Nat.repr c :=
  ⟨parse_canonical a b c, rfl⟩

/-- C4: on a standard (non-Cython) build failure the manifest keeps the
bumped version and the upload is never invoked — but cleanup does NOT run:
StandardBuildStrategy.build raises, the except handler in
PackageDeploy.deploy catches it and returns before cleanup_build, which
sits inside the try block with no finally.  The claim (and the spec)
require cleanup on every run; the code skips it here. -/
theorem c4_standard_build_failure :
    deployRun ⟨"1.2.3", "patch", false, false,
        some "https://nexus.example.com/repo", true, true⟩ =
      ([PEv.saveManifest "1.2.4", PEv.runBuild, PEv.logDeployFailed], false) ∧
    finalManifest "1.2.3"
      (deployRun ⟨"1.2.3", "patch", false, false,
        some "https://nexus.example.com/repo", true, true⟩).1 = "1.2.4" ∧
    PEv.runUpload ∉
      (deployRun ⟨"1.2.3", "patch", false, false,
        some "https://nexus.example.com/repo", true, true⟩).1 ∧
    PEv.cleanup ∉
      (deployRun ⟨"1.2.3", "patch", false, false,
        some "https://nexus.example.com/repo", true, true⟩).1 := by
  refine ⟨rfl, rfl, ?_, ?_⟩ <;> decide

/-- C6: bump_version fails fast — a version string the parser rejects
raises the invalid-format error, a bump kind outside
patch/minor/major/alpha/beta/rc raises the invalid-kind error, and in
every error case no manifest write has happened, so the stored version is
unchanged. -/
theorem c6_fail_fast (stored vt : String) :
    ((∃ e, parse_prerelease stored = .error e) →
      bump_version_trace stored vt = ([], .error (.invalidVersionFormat stored))) ∧
    ((∃ i, parse_prerelease stored = .ok i) → vt ∉ bumpKinds →
      bump_version_trace stored vt = ([], .error (.invalidBumpKind vt))) ∧
    (∀ e, (bump_version_trace stored vt).2 = .error e →
      (bump_version_trace stored vt).1 = [] ∧
      manifestAfter stored (bump_version_trace stored vt).1 = stored) := by
  refine ⟨?_, ?_, ?_⟩
  · rintro ⟨e, he⟩
    simp [bump_version_trace, he]
  · rintro ⟨i, hi⟩ hk
    simp [bump_version_trace, hi, bumpCore_invalid i vt hk]
  · intro e he
    rcases bump_trace_shape stored vt with ⟨e2, h2⟩ | ⟨v, hv⟩
    · rw [h2]
      exact ⟨rfl, rfl⟩
    · rw [hv] at he
      exact absurd he (by simp)

/-- C6 witness: bumping "1.2.3" with the kind "banana" errors with the
invalid-kind error and writes nothing. -/
theorem c6_fail_fast_witness :
    bump_version_trace "1.2.3" "banana" = ([], .error (.invalidBumpKind "banana")) :=
  (c6_fail_fast "1.2.3" "banana").2.1 ⟨⟨1, 2, 3, none, 1, false⟩, rfl⟩ (by decide)

/-- C9: the rc transition is the identity on a parser-accepted input: the
tag of "1.2.3c1" parses as c, the rc branch of bump_version only handles
the tags a, b and rc, so bumping "1.2.3c1" with rc rewrites the same
version string. -/
theorem c9_rc_identity_on_c :
    parse_prerelease "1.2.3c1" = .ok ⟨1, 2, 3, some "c", 1, true⟩ ∧
    bumpCore ⟨1, 2, 3, some "c", 1, true⟩ "rc"
      = some (VersionInfo.toState ⟨1, 2, 3, some "c", 1, true⟩) ∧
    (bump_version_trace "1.2.3c1" "rc").2 = .ok "1.2.3c1" := by
  refine ⟨rfl, ?_, rfl⟩
  decide

/-- C3: bumping with kind patch drops the prerelease and leaves all three
numbers unchanged on a prerelease version, and increments only patch (no
prerelease added) on a release version. -/
theorem c3_patch_bump (i : VersionInfo) (h : ValidInfo i) :
    ∃ st, bumpCore i "patch" = some st ∧
      st.major = i.major ∧ st.minor = i.minor ∧
      (i.has_prerelease = true →
        st.patch = i.patch ∧ st.prerelease_type = none) ∧
      (i.has_prerelease = false →
        st.patch = i.patch + 1 ∧ st.prerelease_type = none) := by
  unfold ValidInfo at h
  cases hp : i.has_prerelease with
  | true =>
    refine ⟨⟨i.major, i.minor, i.patch, none, 1⟩, ?_, rfl, rfl,
      fun _ => ⟨rfl, rfl⟩, fun hf => absurd hf (by simp)⟩
    simp [bumpCore, hp]
  | false =>
    have hnone : i.prerelease_type = none := by
      rw [hp] at h
      exact Option.not_isSome_iff_eq_none.mp (by rw [← h]; simp)
    refine ⟨⟨i.major, i.minor, i.patch + 1, i.prerelease_type, i.prerelease_version⟩,
      ?_, rfl, rfl,
      fun ht => absurd ht (by simp),
      fun _ => ⟨rfl, hnone⟩⟩
    simp [bumpCore, hp]

/-- C3 witness: patch bump of the prerelease version 1.2.3a1 keeps patch 3
and drops the prerelease. -/
theorem c3_patch_bump_witness :
    ∃ st, bumpCore ⟨1, 2, 3, some "a", 1, true⟩ "patch" = some st ∧
      st.patch = 3 ∧ st.prerelease_type = none := by
  obtain ⟨st, hst, -, -, hpre, -⟩ :=
    c3_patch_bump ⟨1, 2, 3, some "a", 1, true⟩ (by decide)
  obtain ⟨hp1, hp2⟩ := hpre rfl
  exact ⟨st, hst, hp1, hp2⟩

/-- The prerelease tag written by each prerelease bump kind. -/
def kindTag (version_type : String) : Option String :=
  if version_type = "alpha" then some "a"
  else if version_type = "beta" then some "b"
  else if version_type = "rc" then some "rc"
  else none

/-- C5: the prerelease bump kinds alpha, beta, rc never change major,
minor or patch; and when the bump kind matches the current prerelease
tag, the only change is prerelease_number + 1. -/
theorem c5_prerelease_frame (i : VersionInfo) (vt : String) (hv : ValidInfo i)
    (hvt : vt = "alpha" ∨ vt = "beta" ∨ vt = "rc") :
    ∃ st, bumpCore i vt = some st ∧
      st.major = i.major ∧ st.minor = i.minor ∧ st.patch = i.patch ∧
      (i.prerelease_type = kindTag vt →
        st = ⟨i.major, i.minor, i.patch, i.prerelease_type,
              i.prerelease_version + 1⟩) := by
  unfold ValidInfo at hv
  have hfalse : i.has_prerelease = false → i.prerelease_type = none := by
    intro hp
    rw [hp] at hv
    exact Option.not_isSome_iff_eq_none.mp (by rw [← hv]; simp)
  rcases hvt with rfl | rfl | rfl
  · cases hp : i.has_prerelease with
    | true =>
      by_cases ha : i.prerelease_type = some "a"
      · exact ⟨⟨i.major, i.minor, i.patch, i.prerelease_type,
          i.prerelease_version + 1⟩, by simp [bumpCore, hp, ha], rfl, rfl, rfl,
          fun _ => rfl⟩
      · exact ⟨⟨i.major, i.minor, i.patch, some "a", 1⟩,
          by simp [bumpCore, hp, ha], rfl, rfl, rfl,
          fun hk => absurd (by simpa [kindTag] using hk) ha⟩
    | false =>
      exact ⟨⟨i.major, i.minor, i.patch, some "a", 1⟩,
        by simp [bumpCore, hp], rfl, rfl, rfl,
        fun hk => by rw [hfalse hp] at hk; exact absurd hk (by simp [kindTag])⟩
  · cases hp : i.has_prerelease with
    | true =>
      by_cases ha : i.prerelease_type = some "a"
      · refine ⟨⟨i.major, i.minor, i.patch, some "b", 1⟩,
          by simp [bumpCore, hp, ha], rfl, rfl, rfl, fun hk => ?_⟩
        rw [ha] at hk
        exact absurd hk (by simp [kindTag])
      · by_cases hb : i.prerelease_type = some "b"
        · exact ⟨⟨i.major, i.minor, i.patch, i.prerelease_type,
            i.prerelease_version + 1⟩, by simp [bumpCore, hp, ha, hb],
            rfl, rfl, rfl, fun _ => rfl⟩
        · exact ⟨⟨i.major, i.minor, i.patch, some "b", 1⟩,
            by simp [bumpCore, hp, ha, hb], rfl, rfl, rfl,
            fun hk => absurd (by simpa [kindTag] using hk) hb⟩
    | false =>
      exact ⟨⟨i.major, i.minor, i.patch, some "b", 1⟩,
        by simp [bumpCore, hp], rfl, rfl, rfl,
        fun hk => by rw [hfalse hp] at hk; exact absurd hk (by simp [kindTag])⟩
  · cases hp : i.has_prerelease with
    | true =>
      by_cases hab : i.prerelease_type = some "a" ∨ i.prerelease_type = some "b"
      · refine ⟨⟨i.major, i.minor, i.patch, some "rc", 1⟩,
          by simp [bumpCore, hp, hab], rfl, rfl, rfl, fun hk => ?_⟩
        rcases hab with ha | hb
        · rw [ha] at hk; exact absurd hk (by simp [kindTag])
        · rw [hb] at hk; exact absurd hk (by simp [kindTag])
      · by_cases hrc : i.prerelease_type = some "rc"
        · exact ⟨⟨i.major, i.minor, i.patch, i.prerelease_type,
            i.prerelease_version + 1⟩, by simp [bumpCore, hp, hab, hrc],
            rfl, rfl, rfl, fun _ => rfl⟩
        · exact ⟨⟨i.major, i.minor, i.patch, i.prerelease_type,
            i.prerelease_version⟩, by simp [bumpCore, hp, hab, hrc],
            rfl, rfl, rfl,
            fun hk => absurd (by simpa [kindTag] using hk) hrc⟩
    | false =>
      exact ⟨⟨i.major, i.minor, i.patch, some "rc", 1⟩,
        by simp [bumpCore, hp], rfl, rfl, rfl,
        fun hk => by rw [hfalse hp] at hk; exact absurd hk (by simp [kindTag])⟩

/-- C5 witness: a beta bump of 1.2.3b4 only increments the prerelease
number. -/
theorem c5_prerelease_frame_witness :
    bumpCore ⟨1, 2, 3, some "b", 4, true⟩ "beta" = some ⟨1, 2, 3, some "b", 5⟩ := by
  obtain ⟨st, hst, -, -, -, hsame⟩ :=
    c5_prerelease_frame ⟨1, 2, 3, some "b", 4, true⟩ "beta" (by decide)
      (Or.inr (Or.inl rfl))
  rw [hst, hsame (by decide)]

/-- C7 counterexample: the claim says every accepted prerelease string has
prerelease_number >= 1, but "1.2.3a0" is accepted with prerelease_number
0 (the digit suffix "0" is a truthy Python string, so int("0") = 0 is
used, not the default 1). -/
theorem c7_counterexample :
    parse_prerelease "1.2.3a0" = .ok ⟨1, 2, 3, some "a", 0, true⟩ ∧
    ¬ (1 ≤ (0 : Nat)) :=
  ⟨rfl, by decide⟩

/-- C7 (amended): for every accepted version string carrying a prerelease
tag, prerelease_number is the numeric value of the digit suffix when one
is present (which is 0 for a suffix denoting zero) and defaults to 1 when
no digits follow the tag. -/
theorem c7_prerelease_number (s : String) (d1 d2 d3 t num : List Char)
    (hs : s.toList = d1 ++ '.' :: (d2 ++ '.' :: (d3 ++ t ++ num)))
    (h1 : IsDigitRun d1) (h2 : IsDigitRun d2) (h3 : IsDigitRun d3)
    (ht : TagList t) (hnum : ∀ c ∈ num, c.isDigit = true) :
    ∃ i, parse_prerelease s = .ok i ∧ i.has_prerelease = true ∧
      (num = [] → i.prerelease_version = 1) ∧
      (num ≠ [] → i.prerelease_version = digitsToNat num) := by
  have htne : t ≠ [] := by rcases ht with rfl | rfl | rfl | rfl <;> simp
  have hm := matchVersion_complete d1 d2 d3 t num h1 h2 h3 (Or.inr ht) hnum
    (fun hh => absurd hh htne)
  refine ⟨⟨digitsToNat d1, digitsToNat d2, digitsToNat d3, tagStr t,
    if num = [] then 1 else digitsToNat num, (tagStr t).isSome⟩, ?_, ?_, ?_, ?_⟩
  · rw [parse_prerelease, hs, hm]
  · rcases ht with rfl | rfl | rfl | rfl <;> rfl
  · intro hh
    simp [hh]
  · intro hh
    simp [hh]

/-- C7 witness: "1.2.3a" (tag with no digit suffix) parses with
prerelease_number 1. -/
theorem c7_prerelease_number_witness :
    ∃ i, parse_prerelease "1.2.3a" = .ok i ∧ i.has_prerelease = true ∧
      i.prerelease_version = 1 := by
  obtain ⟨i, hi, hp, h1, -⟩ :=
    c7_prerelease_number "1.2.3a" ['1'] ['2'] ['3'] ['a'] []
      (by decide) (by decide) (by decide) (by decide) (by decide) (by decide)
  exact ⟨i, hi, hp, h1 rfl⟩

theorem nexus_stage_shape (repoUrl : Option String) (uploadOk : Bool) :
    (nexusDeployStage repoUrl uploadOk).1 = [] ∨
      (nexusDeployStage repoUrl uploadOk).1 = [PEv.runUpload] := by
  cases repoUrl with
  | none => exact Or.inl rfl
  | some u =>
    by_cases hu : u = ""
    · left; simp [nexusDeployStage, hu]
    · right; simp [nexusDeployStage, hu]

/-- C8: the tag push runs only when the deploy stage returned True; and a
tag-push failure is caught inside git_push, logged as a warning and never
re-raised, so the run still reaches cleanup and the completion log and
returns normally. -/
theorem c8_push_tags (env : PipelineEnv) :
    (PEv.gitPush ∈ (deployRun env).1 →
      (nexusDeployStage env.repositoryUrl env.uploadOk).2 = true) ∧
    (env.gitOk = false → PEv.gitPush ∈ (deployRun env).1 →
      PEv.warnGitPushFailed ∈ (deployRun env).1 ∧
      PEv.logDeployComplete ∈ (deployRun env).1 ∧
      PEv.logDeployFailed ∉ (deployRun env).1 ∧
      (deployRun env).2 = true) := by
  rcases bump_trace_shape env.storedVersion env.versionType with ⟨e, hbt⟩ | ⟨v, hbt⟩
  · constructor
    · intro hmem
      simp only [deployRun, hbt, List.map_nil, List.nil_append] at hmem
      exact absurd hmem (by simp)
    · intro _ hmem
      simp only [deployRun, hbt, List.map_nil, List.nil_append] at hmem
      exact absurd hmem (by simp)
  · rcases hnd : nexusDeployStage env.repositoryUrl env.uploadOk with ⟨devs, dok⟩
    have hdevs : devs = [] ∨ devs = [PEv.runUpload] := by
      have := nexus_stage_shape env.repositoryUrl env.uploadOk
      rwa [hnd] at this
    cases hcy : env.useCython with
    | true =>
      cases hbo : env.buildOk with
      | true =>
        cases dok with
        | true =>
          constructor
          · intro _; rfl
          · intro hgo _
            simp [deployRun, hbt, buildStage, hcy, hbo, hnd, git_push, hgo, liftMEv]
            rcases hdevs with rfl | rfl <;> simp [liftMEv]
        | false =>
          constructor
          · intro hmem
            simp only [deployRun, hbt, buildStage, hcy, hbo, hnd, liftMEv, List.map] at hmem
            rcases hdevs with rfl | rfl <;> simp [liftMEv] at hmem
          · intro hgo hmem
            simp only [deployRun, hbt, buildStage, hcy, hbo, hnd, liftMEv, List.map] at hmem
            rcases hdevs with rfl | rfl <;> simp [liftMEv] at hmem
      | false =>
        constructor
        · intro hmem
          simp only [deployRun, hbt, buildStage, hcy, hbo, liftMEv, List.map] at hmem
          simp at hmem
        · intro hgo hmem
          simp only [deployRun, hbt, buildStage, hcy, hbo, liftMEv, List.map] at hmem
          simp at hmem
    | false =>
      cases hbo : env.buildOk with
      | true =>
        cases dok with
        | true =>
          constructor
          · intro _; rfl
          · intro hgo _
            simp [deployRun, hbt, buildStage, hcy, hbo, hnd, git_push, hgo, liftMEv]
            rcases hdevs with rfl | rfl <;> simp [liftMEv]
        | false =>
          constructor
          · intro hmem
            simp only [deployRun, hbt, buildStage, hcy, hbo, hnd, liftMEv, List.map] at hmem
            rcases hdevs with rfl | rfl <;> simp [liftMEv] at hmem
          · intro hgo hmem
            simp only [deployRun, hbt, buildStage, hcy, hbo, hnd, liftMEv, List.map] at hmem
            rcases hdevs with rfl | rfl <;> simp [liftMEv] at hmem
      | false =>
        constructor
        · intro hmem
          simp only [deployRun, hbt, buildStage, hcy, hbo, liftMEv, List.map] at hmem
          simp at hmem
        · intro hgo hmem
          simp only [deployRun, hbt, buildStage, hcy, hbo, liftMEv, List.map] at hmem
          simp at hmem

/-- C8 witness: a run whose deploy succeeded and whose git push fails
still warns, cleans up, logs completion and returns normally. -/
theorem c8_push_tags_witness :
    PEv.warnGitPushFailed ∈
      (deployRun ⟨"1.2.3", "patch", false, true,
        some "https://nexus.local/r", true, false⟩).1 ∧
    PEv.logDeployComplete ∈
      (deployRun ⟨"1.2.3", "patch", false, true,
        some "https://nexus.local/r", true, false⟩).1 ∧
    PEv.logDeployFailed ∉
      (deployRun ⟨"1.2.3", "patch", false, true,
        some "https://nexus.local/r", true, false⟩).1 ∧
    (deployRun ⟨"1.2.3", "patch", false, true,
      some "https://nexus.local/r", true, false⟩).2 = true :=
  (c8_push_tags ⟨"1.2.3", "patch", false, true,
    some "https://nexus.local/r", true, false⟩).2 rfl (by decide)

/-- C10: PackageDeployer picks the Nexus strategy exactly when a
repository URL is configured and its lowercasing contains "nexus"; in
every other configuration — including no URL at all — it picks the PyPI
strategy, whose upload command is built without requiring a repository
URL. -/
theorem c10_strategy_selection (repoUrl username password : Option String)
    (dryRun : Bool) (distFiles : List String) :
    (getDeployStrategy repoUrl = .nexus ↔
      ∃ u, repoUrl = some u ∧ strContains (lowerStr u) "nexus" = true) ∧
    getDeployStrategy none = .pypi ∧
    (∃ cmd, pypiUploadCmd none username password dryRun distFiles = .ok cmd) := by
  refine ⟨?_, rfl, ⟨_, rfl⟩⟩
  cases repoUrl with
  | none =>
    constructor
    · intro h; exact absurd h (by decide)
    · rintro ⟨u, hu, -⟩; exact absurd hu (by simp)
  | some u =>
    by_cases hu : u = ""
    · subst hu
      constructor
      · intro h; exact absurd h (by decide)
      · rintro ⟨u', hu', hc⟩
        obtain rfl : u' = "" := by injection hu' with h; exact h.symm
        exact absurd hc (by decide)
    · constructor
      · intro h
        simp only [getDeployStrategy, if_neg hu] at h
        by_cases hc : strContains (lowerStr u) "nexus" = true
        · exact ⟨u, rfl, hc⟩
        · simp [hc] at h
      · rintro ⟨u', hu', hc⟩
        obtain rfl : u' = u := by injection hu' with h; exact h.symm
        simp [getDeployStrategy, hu, hc]
